import Mathlib

/-!
Verification of the persistent-worker collection core of
`src/mkdocstrings/handlers/python.py`: the flattened-tree reconstruction
(`rebuild_category_lists`, lines 253-276) and the response classification
performed by `PythonCollector.collect` (lines 152-221), together with the
request serialization (line 184).

Python dictionaries are modelled as association lists with the mapping's
iteration (insertion) order; indexing `d[key]` is modelled by `lookupD`,
which returns the entry of the first matching key (a dict's keys are
unique, so this is the entry of the key).  Exceptions are modelled with
`Except`/`Option`.
-/

namespace Mkdocstrings

/-- Flattened collected object, the wire form produced by the worker
(one node of the object-tree as decoded from JSON, line 267 of the
source): a `path`, a `category`, the five category fields holding paths,
and the `children` mapping from descendant path to flattened descendant. -/
inductive FlatObj : Type where
  | node (path category : String)
      (attributes classes functions methods modules : List String)
      (children : List (String × FlatObj)) : FlatObj

/-- Reconstructed collected object: the five category fields and
`children` now hold node objects. -/
inductive Node : Type where
  | node (path category : String)
      (attributes classes functions methods modules children : List Node) : Node

def FlatObj.path : FlatObj → String
  | .node p _ _ _ _ _ _ _ => p

def FlatObj.category : FlatObj → String
  | .node _ c _ _ _ _ _ _ => c

def FlatObj.attributes : FlatObj → List String
  | .node _ _ a _ _ _ _ _ => a

def FlatObj.classes : FlatObj → List String
  | .node _ _ _ cl _ _ _ _ => cl

def FlatObj.functions : FlatObj → List String
  | .node _ _ _ _ f _ _ _ => f

def FlatObj.methods : FlatObj → List String
  | .node _ _ _ _ _ m _ _ => m

def FlatObj.modules : FlatObj → List String
  | .node _ _ _ _ _ _ mo _ => mo

def FlatObj.children : FlatObj → List (String × FlatObj)
  | .node _ _ _ _ _ _ _ ch => ch

def Node.path : Node → String
  | .node p _ _ _ _ _ _ _ => p

def Node.category : Node → String
  | .node _ c _ _ _ _ _ _ => c

def Node.attributes : Node → List Node
  | .node _ _ a _ _ _ _ _ => a

def Node.classes : Node → List Node
  | .node _ _ _ cl _ _ _ _ => cl

def Node.functions : Node → List Node
  | .node _ _ _ _ f _ _ _ => f

def Node.methods : Node → List Node
  | .node _ _ _ _ _ m _ _ => m

def Node.modules : Node → List Node
  | .node _ _ _ _ _ _ mo _ => mo

def Node.children : Node → List Node
  | .node _ _ _ _ _ _ _ ch => ch

/-- Python dict indexing `d[key]` on an association list (first matching
key; a dict's keys are unique). -/
def lookupD {α : Type} : List (String × α) → String → Option α
  | [], _ => none
  | (k, v) :: rest, key => if key = k then some v else lookupD rest key

/-- Models a category comprehension `[obj["children"][path] for path in paths]`
(lines 269-273 of the source): the paths are resolved left to right and a
missing path raises `KeyError(path)`, modelled as `.error path`. -/
def lookupPaths {α : Type} (ch : List (String × α)) : List String → Except String (List α)
  | [] => .ok []
  | p :: ps =>
      match lookupD ch p with
      | none => .error p
      | some v =>
          match lookupPaths ch ps with
          | .error e => .error e
          | .ok vs => .ok (v :: vs)

/-- Embedding of `rebuild_category_lists` (lines 269-276).  The source
mutates in place: it first replaces each category list by the entries of
the (still flattened) `children` mapping at the listed paths (lines
269-273), then replaces `children` by the list of the mapping's values
(line 274), and finally recurses on every child (lines 275-276).  Because
the category entries are the very same objects as the mapping's values,
after the recursion each category entry IS the rebuilt child.  The
functional embedding therefore rebuilds the children of the mapping (in
iteration order, keeping the keys) and resolves each category path in the
rebuilt mapping, which yields exactly the final state of the mutated
object.  The call raises `KeyError` exactly when some node's category
path is absent from that node's `children` mapping; this is modelled by
`.error` carrying a missing path (when several paths are missing the
reported one may differ from the one CPython's evaluation order reports,
but the success/failure behaviour and the success value coincide). -/
def rebuildE : FlatObj → Except String Node
  | .node path cat attrs cls funcs meths mods ch =>
      match rebuildChildren ch with
      | .error e => .error e
      | .ok chR =>
          match lookupPaths chR attrs with
          | .error e => .error e
          | .ok attrsR =>
              match lookupPaths chR cls with
              | .error e => .error e
              | .ok clsR =>
                  match lookupPaths chR funcs with
                  | .error e => .error e
                  | .ok funcsR =>
                      match lookupPaths chR meths with
                      | .error e => .error e
                      | .ok methsR =>
                          match lookupPaths chR mods with
                          | .error e => .error e
                          | .ok modsR =>
                              .ok (.node path cat attrsR clsR funcsR methsR modsR
                                    (chR.map Prod.snd))
where
  /-- Rebuilds every entry of a `children` mapping, in iteration order,
  keeping the keys (lines 275-276 of the source). -/
  rebuildChildren : List (String × FlatObj) → Except String (List (String × Node))
    | [] => .ok []
    | (k, v) :: rest =>
        match rebuildE v with
        | .error e => .error e
        | .ok n =>
            match rebuildChildren rest with
            | .error e => .error e
            | .ok ns => .ok ((k, n) :: ns)

/-- The structural invariant of the wire form (spec section 3): at every
node of the flattened tree, every path listed in a category field is
present as a key of that node's `children` mapping. -/
def wellFormedB : FlatObj → Bool
  | .node _ _ attrs cls funcs meths mods ch =>
      ((attrs ++ cls ++ funcs ++ meths ++ mods).all fun p => (lookupD ch p).isSome)
        && wellFormedChildren ch
where
  wellFormedChildren : List (String × FlatObj) → Bool
    | [] => true
    | (_, v) :: rest => wellFormedB v && wellFormedChildren rest

/-- Number of nodes of a reconstructed tree, counting through the
`children` lists (each node counted once under its parent). -/
def nodeCount : Node → Nat
  | .node _ _ _ _ _ _ _ ch => 1 + nodeCountList ch
where
  nodeCountList : List Node → Nat
    | [] => 0
    | c :: cs => nodeCount c + nodeCountList cs

/-- Total number of entries across all `children` mappings of a
flattened tree. -/
def flatEntryCount : FlatObj → Nat
  | .node _ _ _ _ _ _ _ ch => flatEntryCountList ch
where
  flatEntryCountList : List (String × FlatObj) → Nat
    | [] => 0
    | (_, v) :: rest => (1 + flatEntryCount v) + flatEntryCountList rest

/-- Holds when `P` holds at every node of a reconstructed tree (the node
itself and, recursively, every element of its `children` list). -/
def NodeAll (P : Node → Prop) : Node → Prop
  | .node p c a cl f m mo ch =>
      P (.node p c a cl f m mo ch) ∧ NodeAllList ch
where
  NodeAllList : List Node → Prop
    | [] => True
    | c :: cs => NodeAll P c ∧ NodeAllList cs

/-- At one node of a reconstructed tree: every element of every category
list is also an element of the `children` list (the same node value). -/
def catsWithinChildren (n : Node) : Prop :=
  ∀ x ∈ n.attributes ++ n.classes ++ n.functions ++ n.methods ++ n.modules,
    x ∈ n.children

/-! Concrete scenario (spec section 8): a class `pkg.Foo` with one
method child `pkg.Foo.bar`. -/

def barFlat : FlatObj := .node "pkg.Foo.bar" "method" [] [] [] [] [] []

def fooFlat : FlatObj :=
  .node "pkg.Foo" "class" [] [] [] ["pkg.Foo.bar"] [] [("pkg.Foo.bar", barFlat)]

/-! JSON values and serialization.  `dumps` models CPython's
`json.dumps` with its default settings (`ensure_ascii=True`, separators
`", "` and `": "`): strings are emitted between double quotes with
backslash escapes for the quote, the backslash, the named control
characters, `\uXXXX` for the other control characters and all
non-ASCII characters (surrogate pairs above the basic plane); numbers
are modelled as integers and emitted in decimal. -/

inductive Json : Type where
  | null
  | bool (b : Bool)
  | num (n : Int)
  | str (s : String)
  | arr (elements : List Json)
  | obj (fields : List (String × Json))

def hexDigit : Nat → Char
  | 0 => '0' | 1 => '1' | 2 => '2' | 3 => '3' | 4 => '4' | 5 => '5' | 6 => '6'
  | 7 => '7' | 8 => '8' | 9 => '9' | 10 => 'a' | 11 => 'b' | 12 => 'c'
  | 13 => 'd' | 14 => 'e' | _ => 'f'

def toHex4 (n : Nat) : List Char :=
  [hexDigit (n / 4096 % 16), hexDigit (n / 256 % 16), hexDigit (n / 16 % 16),
   hexDigit (n % 16)]

/-- Escaping of one character inside a JSON string, as CPython's
`json.dumps` does with `ensure_ascii=True`. -/
def escapeChar (c : Char) : List Char :=
  if c = '"' then ['\\', '"']
  else if c = '\\' then ['\\', '\\']
  else if c = '\n' then ['\\', 'n']
  else if c = '\r' then ['\\', 'r']
  else if c = '\t' then ['\\', 't']
  else if c.toNat = 8 then ['\\', 'b']
  else if c.toNat = 12 then ['\\', 'f']
  else if 32 ≤ c.toNat ∧ c.toNat ≤ 126 then [c]
  else if c.toNat < 65536 then '\\' :: 'u' :: toHex4 c.toNat
  else
    ('\\' :: 'u' :: toHex4 (55296 + (c.toNat - 65536) / 1024)) ++
    ('\\' :: 'u' :: toHex4 (56320 + (c.toNat - 65536) % 1024))

def escList : List Char → List Char
  | [] => []
  | c :: cs => escapeChar c ++ escList cs

def encodeString (s : String) : List Char :=
  '"' :: (escList s.data ++ ['"'])

def digitChar10 : Nat → Char
  | 0 => '0' | 1 => '1' | 2 => '2' | 3 => '3' | 4 => '4' | 5 => '5' | 6 => '6'
  | 7 => '7' | 8 => '8' | _ => '9'

/-- Decimal digits of `n`, with enough fuel to terminate structurally. -/
def natDigitsCore : Nat → Nat → List Char
  | 0, _ => []
  | fuel + 1, n =>
      if n < 10 then [digitChar10 n]
      else natDigitsCore fuel (n / 10) ++ [digitChar10 (n % 10)]

def natRepr (n : Nat) : List Char := natDigitsCore (n + 1) n

/-- Python `repr` of an integer. -/
def intRepr : Int → List Char
  | .ofNat n => natRepr n
  | .negSucc n => '-' :: natRepr (n + 1)

/-- CPython `json.dumps` with default settings, producing the characters
of the encoded text. -/
def dumps : Json → List Char
  | .null => "null".data
  | .bool true => "true".data
  | .bool false => "false".data
  | .num i => intRepr i
  | .str s => encodeString s
  | .arr elements => '[' :: (dumpsArr elements ++ [']'])
  | .obj fields => '\x7b' :: (dumpsObj fields ++ ['\x7d'])
where
  dumpsArr : List Json → List Char
    | [] => []
    | [x] => dumps x
    | x :: y :: rest => dumps x ++ (',' :: ' ' :: dumpsArr (y :: rest))
  dumpsObj : List (String × Json) → List Char
    | [] => []
    | [(k, v)] => encodeString k ++ (':' :: ' ' :: dumps v)
    | (k, v) :: kv :: rest =>
        encodeString k ++ (':' :: ' ' :: dumps v) ++ (',' :: ' ' :: dumpsObj (kv :: rest))

/-! Model of `PythonCollector.collect` (lines 152-221 of the source).

The subprocess boundary is modelled explicitly: the worker's standard
output is a list of lines, of which `collect` reads exactly one
(`self.process.stdout.readline()`, line 190; at end of stream `readline`
returns the empty string); `json.loads` is an external decoder passed as
a parameter, returning either the decoded `Response` record or the text
of the raised `JSONDecodeError` (whose message carries the error kind
and a position, never the document itself).  The calls to `log.error`
and `log.warning` are collected in a list of log entries (the `log.debug`
calls carry no response data and are not modelled).  The exception
raised by a failing call is modelled by `CollectErr`: `collectionError`
is the handler's own `CollectionError`, while `keyError` and
`indexError` are the built-in exceptions that escape from
`rebuild_category_lists` (missing category path) and from
`result["objects"][0]` (empty list). -/

/-- Decoded response record (spec section 3): the recognized top-level
fields of the worker's one-line JSON answer.  `error` and `traceback`
are `none` when the key is absent; `some ""` models a present key with
an empty value. -/
structure Response : Type where
  error : Option String
  traceback : Option String
  loading_errors : List String
  parsing_errors : List (String × List String)
  objects : List FlatObj

inductive LogEntry : Type where
  | errorLog (msg : String)
  | warningLog (msg : String)

/-- The kind of exception a failing `collect` call raises. -/
inductive CollectErr : Type where
  | collectionError (msg : String)
  | keyError (key : String)
  | indexError

/-- Prefix of every log message emitted by the handler. -/
def logPrefix : String := "mkdocstrings.handlers.python: "

/-- Python `d[k] = v` on an association-list dict: an existing key is
overwritten in place, a new key is appended. -/
def setKey (d : List (String × Json)) (k : String) (v : Json) :
    List (String × Json) :=
  if d.any (fun kv => kv.1 = k) then
    d.map (fun kv => if kv.1 = k then (k, v) else kv)
  else d ++ [(k, v)]

/-- Python `d.update(u)`: entries of `u` are set one by one, in order. -/
def dictUpdate (d u : List (String × Json)) : List (String × Json) :=
  u.foldl (fun acc kv => setKey acc kv.1 kv.2) d

/-- The collector's default selection options (line 90 of the source):
`{"filters": ["!^_[^_]"]}`. -/
def DEFAULT_CONFIG : List (String × Json) :=
  [("filters", Json.arr [Json.str "!^_[^_]"])]

/-- The request payload serialized on line 184 of the source:
`json.dumps({"objects": [{"path": identifier, **final_config}]})`. -/
def json_input (identifier : String) (final_config : List (String × Json)) :
    List Char :=
  dumps (Json.obj [("objects", Json.arr
    [Json.obj (dictUpdate [("path", Json.str identifier)] final_config)])])

/-- Python `readline()` on a stream modelled as a list of lines: the
next line, or the empty string at end of stream. -/
def readline : List String → String × List String
  | [] => ("", [])
  | l :: rest => (l, rest)

/-- Classification of one raw response line (lines 192-221 of the
source), given the outcome of `json.loads` on it: the emitted error and
warning log entries, and either the reconstructed tree or the raised
exception. -/
def collectClassify (decoded : Except String Response) (stdout : String) :
    List LogEntry × Except CollectErr Node :=
  match decoded with
  | .error exc =>
      ([.errorLog (logPrefix ++ "Error while loading JSON: " ++ stdout)],
       .error (.collectionError exc))
  | .ok result =>
      match result.error with
      | some err =>
          let message := logPrefix ++ "Collection failed: " ++ err
          let message :=
            match result.traceback with
            | some tb => message ++ "\n" ++ tb
            | none => message
          ([.errorLog message], .error (.collectionError err))
      | none =>
          let warnings :=
            (result.loading_errors.map fun e =>
              LogEntry.warningLog (logPrefix ++ e)) ++
            (result.parsing_errors.map fun pe =>
              pe.2.map fun e => LogEntry.warningLog (logPrefix ++ e)).flatten
          match result.objects with
          | [] => (warnings, .error .indexError)
          | o :: _ =>
              match rebuildE o with
              | .error k => (warnings, .error (.keyError k))
              | .ok n => (warnings, .ok n)

/-- Outcome of one `collect` call. -/
structure CollectResult : Type where
  /-- The text written to the worker's standard input (the serialized
  request followed by the newline that `print` appends, line 187). -/
  written : String
  /-- The error and warning log entries emitted. -/
  logs : List LogEntry
  /-- The reconstructed tree, or the exception the call raises. -/
  result : Except CollectErr Node
  /-- The worker-stdout lines left unread (exactly one line is read). -/
  remaining : List String

/-- Model of one `PythonCollector.collect(identifier, config)` call
(lines 152-221): merge the default selection options with `config`,
serialize and write the one-line request, read one response line,
classify it, and on success extract and rebuild the single collected
object. -/
def collect (jsonLoads : String → Except String Response)
    (identifier : String) (config : List (String × Json))
    (stdoutLines : List String) : CollectResult :=
  let final_config := dictUpdate DEFAULT_CONFIG config
  let payload := json_input identifier final_config
  let stdout := (readline stdoutLines).1
  let classified := collectClassify (jsonLoads stdout) stdout
  ⟨String.mk payload ++ "\n", classified.1, classified.2, (readline stdoutLines).2⟩

/-- Discriminates the results that surface as the handler's own
`CollectionError`. -/
def isCollectionErrorResult : Except CollectErr Node → Bool
  | .error (.collectionError _) => true
  | _ => false

/-- The message CPython's `json.loads` raises on the input `"not json"`
(a `JSONDecodeError` message carries the error kind and a position,
never the document text). -/
def decodeErrMsg : String := "Expecting value: line 1 column 1 (char 0)"

/-- Decoder that fails as `json.loads "not json"` does. -/
def loadsFail : String → Except String Response := fun _ => .error decodeErrMsg

/-- Non-error response whose `objects` list is empty (a structural
contract violation by the worker). -/
def emptyObjectsResponse : Response := ⟨none, none, [], [], []⟩

def loadsEmptyObjects : String → Except String Response :=
  fun _ => .ok emptyObjectsResponse

/-- Worker-reported error response with a traceback. -/
def errResponse : Response := ⟨some "boom", some "worker traceback", [], [], []⟩

def loadsErr : String → Except String Response := fun _ => .ok errResponse

/-- Worker-reported error response whose `error` value is the empty
string (the key is present, the value empty). -/
def emptyErrResponse : Response := ⟨some "", none, [], [], []⟩

def loadsEmptyErr : String → Except String Response := fun _ => .ok emptyErrResponse

/-- Successful response carrying the scenario tree together with
loading and parsing warnings. -/
def okResponse : Response :=
  ⟨none, none, ["could not load module xyz"],
   [("src/pkg.py", ["invalid docstring section"])], [fooFlat]⟩

def loadsOk : String → Except String Response := fun _ => .ok okResponse

def barNode : Node := .node "pkg.Foo.bar" "method" [] [] [] [] [] []

def fooNode : Node :=
  .node "pkg.Foo" "class" [] [] [] [barNode] [] [barNode]

/-! Helper lemmas about `lookupD`, `lookupPaths` and `rebuildE`. -/

theorem lookupD_mem {α : Type} :
    ∀ (l : List (String × α)) (key : String) (v : α),
      lookupD l key = some v → v ∈ l.map Prod.snd
  | [], _, _, h => by rw [lookupD] at h; cases h
  | (k, w) :: rest, key, v, h => by
      rw [lookupD] at h
      by_cases hk : key = k
      · simp only [hk, if_pos rfl] at h
        cases h
        simp
      · simp only [if_neg hk] at h
        simpa using Or.inr (lookupD_mem rest key v h)

theorem lookupPaths_ok_of_all {α : Type} (ch : List (String × α)) :
    ∀ ps : List String, (∀ p ∈ ps, (lookupD ch p).isSome = true) →
      ∃ vs, lookupPaths ch ps = .ok vs
  | [], _ => ⟨[], rfl⟩
  | p :: ps, h => by
      obtain ⟨v, hv⟩ := Option.isSome_iff_exists.mp (h p (by simp))
      obtain ⟨vs, hvs⟩ :=
        lookupPaths_ok_of_all ch ps (fun q hq => h q (by simp [hq]))
      exact ⟨v :: vs, by rw [lookupPaths, hv, hvs]⟩

theorem lookupPaths_ok_inv {α : Type} (ch : List (String × α)) :
    ∀ (ps : List String) (vs : List α), lookupPaths ch ps = .ok vs →
      List.Forall₂ (fun p v => lookupD ch p = some v) ps vs
  | [], vs, h => by
      rw [lookupPaths] at h
      cases h
      exact .nil
  | p :: ps, vs, h => by
      rw [lookupPaths] at h
      split at h
      · exact Except.noConfusion h
      next v hv =>
        split at h
        · exact Except.noConfusion h
        next ws hws =>
          cases h
          exact .cons hv (lookupPaths_ok_inv ch ps ws hws)

theorem mem_of_lookupPaths_ok {α : Type} (ch : List (String × α)) :
    ∀ (ps : List String) (vs : List α), lookupPaths ch ps = .ok vs →
      ∀ x ∈ vs, ∃ p, lookupD ch p = some x
  | [], vs, h => by
      rw [lookupPaths] at h
      cases h
      intro x hx
      cases hx
  | p :: ps, vs, h => by
      rw [lookupPaths] at h
      split at h
      · exact Except.noConfusion h
      next v hv =>
        split at h
        · exact Except.noConfusion h
        next ws hws =>
          cases h
          intro x hx
          rcases List.mem_cons.mp hx with hx | hx
          · exact ⟨p, hx ▸ hv⟩
          · exact mem_of_lookupPaths_ok ch ps ws hws x hx

/-- Inversion of a successful `rebuildE` call at a node. -/
theorem rebuildE_ok_inv {p c : String} {a cl f m mo : List String}
    {ch : List (String × FlatObj)} {n : Node}
    (h : rebuildE (.node p c a cl f m mo ch) = .ok n) :
    ∃ chR aR clR fR mR moR,
      rebuildE.rebuildChildren ch = .ok chR ∧
      lookupPaths chR a = .ok aR ∧
      lookupPaths chR cl = .ok clR ∧
      lookupPaths chR f = .ok fR ∧
      lookupPaths chR m = .ok mR ∧
      lookupPaths chR mo = .ok moR ∧
      n = .node p c aR clR fR mR moR (chR.map Prod.snd) := by
  rw [rebuildE] at h
  split at h
  · exact Except.noConfusion h
  next chR hch =>
    split at h
    · exact Except.noConfusion h
    next aR ha =>
      split at h
      · exact Except.noConfusion h
      next clR hcl =>
        split at h
        · exact Except.noConfusion h
        next fR hf =>
          split at h
          · exact Except.noConfusion h
          next mR hm =>
            split at h
            · exact Except.noConfusion h
            next moR hmo =>
              cases h
              exact ⟨chR, aR, clR, fR, mR, moR, hch, ha, hcl, hf, hm, hmo, rfl⟩

/-- Inversion of a successful `rebuildE.rebuildChildren` call: keys are
kept, in order, and every entry's value is rebuilt. -/
theorem rebuildChildren_ok_inv :
    ∀ (ch : List (String × FlatObj)) (chR : List (String × Node)),
      rebuildE.rebuildChildren ch = .ok chR →
      List.Forall₂ (fun kv kn => kv.1 = kn.1 ∧ rebuildE kv.2 = .ok kn.2) ch chR
  | [], chR, h => by
      rw [rebuildE.rebuildChildren] at h
      cases h
      exact .nil
  | (k, v) :: rest, chR, h => by
      rw [rebuildE.rebuildChildren] at h
      split at h
      · exact Except.noConfusion h
      next n hn =>
        split at h
        · exact Except.noConfusion h
        next ns hns =>
          cases h
          exact .cons ⟨rfl, hn⟩ (rebuildChildren_ok_inv rest ns hns)

/-- Along the `rebuildChildren` relation, looking a key up in the flat
mapping and in the rebuilt mapping agree: both are absent, or both are
present and the rebuilt entry is the rebuild of the flat entry. -/
theorem lookupD_rebuildChildren :
    ∀ (ch : List (String × FlatObj)) (chR : List (String × Node)),
      List.Forall₂ (fun kv kn => kv.1 = kn.1 ∧ rebuildE kv.2 = .ok kn.2) ch chR →
      ∀ key, (lookupD ch key = none ∧ lookupD chR key = none) ∨
        ∃ fv nd, lookupD ch key = some fv ∧ lookupD chR key = some nd ∧
          rebuildE fv = .ok nd
  | [], [], _, key => .inl ⟨rfl, rfl⟩
  | (k, fv) :: ch, (k', nd) :: chR, h, key => by
      cases h with
      | cons hhd htl =>
        obtain ⟨hk, hR⟩ := hhd
        simp only at hk
        subst hk
        by_cases hkey : key = k
        · subst hkey
          exact .inr ⟨fv, nd, by rw [lookupD]; simp, by rw [lookupD]; simp, hR⟩
        · have ih := lookupD_rebuildChildren ch chR htl key
          rw [lookupD, if_neg hkey, lookupD, if_neg hkey]
          exact ih

mutual

/-- On a well-formed flattened tree, `rebuild_category_lists` completes
without raising. -/
theorem rebuild_ok_of_wf :
    ∀ o : FlatObj, wellFormedB o = true → ∃ n, rebuildE o = .ok n
  | .node p c a cl f m mo ch, h => by
      rw [wellFormedB, Bool.and_eq_true] at h
      obtain ⟨hall, hch⟩ := h
      rw [List.all_eq_true] at hall
      obtain ⟨chR, hchR⟩ := rebuildChildren_ok_of_wf ch hch
      have hrel := rebuildChildren_ok_inv ch chR hchR
      have hkeys : ∀ key, (lookupD ch key).isSome = true →
          (lookupD chR key).isSome = true := by
        intro key hk
        rcases lookupD_rebuildChildren ch chR hrel key with ⟨h1, _⟩ | ⟨_, nd, _, h2, _⟩
        · rw [h1] at hk; cases hk
        · rw [h2]; rfl
      obtain ⟨aR, haR⟩ := lookupPaths_ok_of_all chR a
        (fun q hq => hkeys q (hall q (by simp [hq])))
      obtain ⟨clR, hclR⟩ := lookupPaths_ok_of_all chR cl
        (fun q hq => hkeys q (hall q (by simp [hq])))
      obtain ⟨fR, hfR⟩ := lookupPaths_ok_of_all chR f
        (fun q hq => hkeys q (hall q (by simp [hq])))
      obtain ⟨mR, hmR⟩ := lookupPaths_ok_of_all chR m
        (fun q hq => hkeys q (hall q (by simp [hq])))
      obtain ⟨moR, hmoR⟩ := lookupPaths_ok_of_all chR mo
        (fun q hq => hkeys q (hall q (by simp [hq])))
      exact ⟨.node p c aR clR fR mR moR (chR.map Prod.snd),
        by simp only [rebuildE, hchR, haR, hclR, hfR, hmR, hmoR]⟩

theorem rebuildChildren_ok_of_wf :
    ∀ ch : List (String × FlatObj), wellFormedB.wellFormedChildren ch = true →
      ∃ chR, rebuildE.rebuildChildren ch = .ok chR
  | [], _ => ⟨[], rfl⟩
  | (k, v) :: rest, h => by
      rw [wellFormedB.wellFormedChildren, Bool.and_eq_true] at h
      obtain ⟨hv, hrest⟩ := h
      obtain ⟨n, hn⟩ := rebuild_ok_of_wf v hv
      obtain ⟨ns, hns⟩ := rebuildChildren_ok_of_wf rest hrest
      exact ⟨(k, n) :: ns, by rw [rebuildE.rebuildChildren, hn, hns]⟩

end

mutual

/-- Every node of a rebuilt tree has its category-list elements among
its children-list elements. -/
theorem rebuilt_catsWithin :
    ∀ (o : FlatObj) (n : Node), rebuildE o = .ok n →
      NodeAll catsWithinChildren n
  | .node p c a cl f m mo ch, n, h => by
      obtain ⟨chR, aR, clR, fR, mR, moR, hch, ha, hcl, hf, hm, hmo, hn⟩ :=
        rebuildE_ok_inv h
      subst hn
      rw [NodeAll]
      refine ⟨?_, rebuiltList_catsWithin ch chR hch⟩
      intro x hx
      simp only [Node.attributes, Node.classes, Node.functions, Node.methods,
        Node.modules, Node.children] at hx ⊢
      have hmem : ∃ q, lookupD chR q = some x := by
        rcases List.mem_append.mp hx with hx | hmo5
        · rcases List.mem_append.mp hx with hx | hm4
          · rcases List.mem_append.mp hx with hx | hf3
            · rcases List.mem_append.mp hx with ha1 | hcl2
              · exact mem_of_lookupPaths_ok chR a aR ha x ha1
              · exact mem_of_lookupPaths_ok chR cl clR hcl x hcl2
            · exact mem_of_lookupPaths_ok chR f fR hf x hf3
          · exact mem_of_lookupPaths_ok chR m mR hm x hm4
        · exact mem_of_lookupPaths_ok chR mo moR hmo x hmo5
      obtain ⟨q, hq⟩ := hmem
      exact lookupD_mem chR q x hq

theorem rebuiltList_catsWithin :
    ∀ (ch : List (String × FlatObj)) (chR : List (String × Node)),
      rebuildE.rebuildChildren ch = .ok chR →
      NodeAll.NodeAllList catsWithinChildren (chR.map Prod.snd)
  | [], chR, h => by
      rw [rebuildE.rebuildChildren] at h
      cases h
      exact trivial
  | (k, v) :: rest, chR, h => by
      rw [rebuildE.rebuildChildren] at h
      split at h
      · exact Except.noConfusion h
      next n hn =>
        split at h
        · exact Except.noConfusion h
        next ns hns =>
          cases h
          exact ⟨rebuilt_catsWithin v n hn, rebuiltList_catsWithin rest ns hns⟩

end

mutual

/-- Rebuilding visits every node exactly once: the rebuilt tree has one
node per flattened `children` entry, plus one for the root. -/
theorem rebuild_count :
    ∀ (o : FlatObj) (n : Node), rebuildE o = .ok n →
      nodeCount n = 1 + flatEntryCount o
  | .node p c a cl f m mo ch, n, h => by
      obtain ⟨chR, aR, clR, fR, mR, moR, hch, _, _, _, _, _, hn⟩ :=
        rebuildE_ok_inv h
      subst hn
      rw [nodeCount, flatEntryCount, rebuildList_count ch chR hch]

theorem rebuildList_count :
    ∀ (ch : List (String × FlatObj)) (chR : List (String × Node)),
      rebuildE.rebuildChildren ch = .ok chR →
      nodeCount.nodeCountList (chR.map Prod.snd) =
        flatEntryCount.flatEntryCountList ch
  | [], chR, h => by
      rw [rebuildE.rebuildChildren] at h
      cases h
      rfl
  | (k, v) :: rest, chR, h => by
      rw [rebuildE.rebuildChildren] at h
      split at h
      · exact Except.noConfusion h
      next n hn =>
        split at h
        · exact Except.noConfusion h
        next ns hns =>
          cases h
          simp only [List.map_cons, nodeCount.nodeCountList,
            flatEntryCount.flatEntryCountList]
          rw [rebuild_count v n hn, rebuildList_count rest ns hns]

end

/-- Categories of a successful rebuild, traced back to the flat mapping:
each path yields the rebuild of the flat entry at that path, in order. -/
theorem lookupPaths_rebuilt_forall₂ (ch : List (String × FlatObj))
    (chR : List (String × Node))
    (hrel : List.Forall₂ (fun kv kn => kv.1 = kn.1 ∧ rebuildE kv.2 = .ok kn.2) ch chR)
    (ps : List String) (vs : List Node) (h : lookupPaths chR ps = .ok vs) :
    List.Forall₂
      (fun p x => ∃ fv, lookupD ch p = some fv ∧ rebuildE fv = .ok x) ps vs := by
  refine (lookupPaths_ok_inv chR ps vs h).imp ?_
  intro p x hpx
  rcases lookupD_rebuildChildren ch chR hrel p with ⟨_, h1⟩ | ⟨fv, nd, hf, hnd, hre⟩
  · rw [h1] at hpx; cases hpx
  · rw [hnd] at hpx
    cases hpx
    exact ⟨fv, hf, hre⟩

/-- Children of a successful rebuild: the rebuilt children list is the
pointwise rebuild of the flat mapping's entries, in iteration order. -/
theorem children_rebuilt_forall₂ (ch : List (String × FlatObj))
    (chR : List (String × Node))
    (hrel : List.Forall₂ (fun kv kn => kv.1 = kn.1 ∧ rebuildE kv.2 = .ok kn.2) ch chR) :
    List.Forall₂ (fun kv c => rebuildE kv.2 = .ok c) ch (chR.map Prod.snd) := by
  rw [List.forall₂_map_right_iff]
  exact hrel.imp fun a b hab => hab.2

/-! The serialized text never contains a raw newline character: every
character of a JSON string is escaped (control characters and non-ASCII
characters become backslash escapes), and every other produced character
is a printable ASCII delimiter or digit. -/

theorem hexDigit_ne_newline (n : Nat) : hexDigit n ≠ '\n' := by
  unfold hexDigit
  split <;> decide

theorem digitChar10_ne_newline (n : Nat) : digitChar10 n ≠ '\n' := by
  unfold digitChar10
  split <;> decide

theorem toHex4_no_newline (n : Nat) : '\n' ∉ toHex4 n := by
  simp [toHex4, hexDigit_ne_newline]
  exact ⟨(hexDigit_ne_newline _).symm, (hexDigit_ne_newline _).symm,
    (hexDigit_ne_newline _).symm, (hexDigit_ne_newline _).symm⟩

theorem escapeChar_no_newline (c : Char) : '\n' ∉ escapeChar c := by
  unfold escapeChar
  split_ifs with h1 h2 h3 h4 h5 h6 h7 h8 h9
  · decide
  · decide
  · decide
  · decide
  · decide
  · decide
  · decide
  · intro hm
    rcases List.mem_singleton.mp hm with rfl
    exact absurd h8 (by decide)
  · intro hm
    simp only [List.mem_cons] at hm
    rcases hm with h | h | h
    · exact absurd h.symm (by decide)
    · exact absurd h.symm (by decide)
    · exact toHex4_no_newline _ h
  · intro hm
    simp only [List.mem_append, List.mem_cons] at hm
    rcases hm with (h | h | h) | (h | h | h)
    · exact absurd h.symm (by decide)
    · exact absurd h.symm (by decide)
    · exact toHex4_no_newline _ h
    · exact absurd h.symm (by decide)
    · exact absurd h.symm (by decide)
    · exact toHex4_no_newline _ h

theorem escList_no_newline : ∀ cs : List Char, '\n' ∉ escList cs
  | [] => by decide
  | c :: cs => by
      rw [escList]
      intro hm
      rcases List.mem_append.mp hm with h | h
      · exact escapeChar_no_newline c h
      · exact escList_no_newline cs h

theorem encodeString_no_newline (s : String) : '\n' ∉ encodeString s := by
  rw [encodeString]
  intro hm
  rcases List.mem_cons.mp hm with h | h
  · exact absurd h (by decide)
  · rcases List.mem_append.mp h with h | h
    · exact escList_no_newline s.data h
    · exact absurd h (by decide)

theorem natDigitsCore_no_newline : ∀ fuel n : Nat, '\n' ∉ natDigitsCore fuel n
  | 0, n => by rw [natDigitsCore]; decide
  | fuel + 1, n => by
      rw [natDigitsCore]
      split
      · intro hm
        exact digitChar10_ne_newline n (List.mem_singleton.mp hm).symm
      · intro hm
        rcases List.mem_append.mp hm with h | h
        · exact natDigitsCore_no_newline fuel (n / 10) h
        · exact digitChar10_ne_newline (n % 10) (List.mem_singleton.mp h).symm

theorem intRepr_no_newline : ∀ i : Int, '\n' ∉ intRepr i
  | .ofNat n => natDigitsCore_no_newline (n + 1) n
  | .negSucc n => by
      rw [intRepr]
      intro hm
      rcases List.mem_cons.mp hm with h | h
      · exact absurd h (by decide)
      · exact natDigitsCore_no_newline (n + 2) (n + 1) h

mutual

theorem dumps_no_newline : ∀ v : Json, '\n' ∉ dumps v
  | .null => by decide
  | .bool true => by decide
  | .bool false => by decide
  | .num i => by rw [dumps]; exact intRepr_no_newline i
  | .str s => by rw [dumps]; exact encodeString_no_newline s
  | .arr elements => by
      rw [dumps]
      intro hm
      rcases List.mem_cons.mp hm with h | h
      · exact absurd h (by decide)
      · rcases List.mem_append.mp h with h | h
        · exact dumpsArr_no_newline elements h
        · exact absurd h (by decide)
  | .obj fields => by
      rw [dumps]
      intro hm
      rcases List.mem_cons.mp hm with h | h
      · exact absurd h (by decide)
      · rcases List.mem_append.mp h with h | h
        · exact dumpsObj_no_newline fields h
        · exact absurd h (by decide)

theorem dumpsArr_no_newline : ∀ l : List Json, '\n' ∉ dumps.dumpsArr l
  | [] => by rw [dumps.dumpsArr]; decide
  | [x] => by rw [dumps.dumpsArr]; exact dumps_no_newline x
  | x :: y :: rest => by
      rw [dumps.dumpsArr]
      intro hm
      rcases List.mem_append.mp hm with h | h
      · exact dumps_no_newline x h
      · rcases List.mem_cons.mp h with h | h
        · exact absurd h (by decide)
        · rcases List.mem_cons.mp h with h | h
          · exact absurd h (by decide)
          · exact dumpsArr_no_newline (y :: rest) h

theorem dumpsObj_no_newline : ∀ l : List (String × Json), '\n' ∉ dumps.dumpsObj l
  | [] => by rw [dumps.dumpsObj]; decide
  | [(k, v)] => by
      rw [dumps.dumpsObj]
      intro hm
      rcases List.mem_append.mp hm with h | h
      · exact encodeString_no_newline k h
      · rcases List.mem_cons.mp h with h | h
        · exact absurd h (by decide)
        · rcases List.mem_cons.mp h with h | h
          · exact absurd h (by decide)
          · exact dumps_no_newline v h
  | (k, v) :: kv :: rest => by
      rw [dumps.dumpsObj]
      intro hm
      rcases List.mem_append.mp hm with h | h
      · rcases List.mem_append.mp h with h | h
        · exact encodeString_no_newline k h
        · rcases List.mem_cons.mp h with h | h
          · exact absurd h (by decide)
          · rcases List.mem_cons.mp h with h | h
            · exact absurd h (by decide)
            · exact dumps_no_newline v h
      · rcases List.mem_cons.mp h with h | h
        · exact absurd h (by decide)
        · rcases List.mem_cons.mp h with h | h
          · exact absurd h (by decide)
          · exact dumpsObj_no_newline (kv :: rest) h

end

/-! Helper lemmas about `collect` and worked concrete inputs. -/

theorem collect_result_cons (loads : String → Except String Response)
    (identifier : String) (config : List (String × Json))
    (line : String) (rest : List String) :
    (collect loads identifier config (line :: rest)).result =
      (collectClassify (loads line) line).2 := rfl

theorem collect_logs_cons (loads : String → Except String Response)
    (identifier : String) (config : List (String × Json))
    (line : String) (rest : List String) :
    (collect loads identifier config (line :: rest)).logs =
      (collectClassify (loads line) line).1 := rfl

theorem collect_remaining_cons (loads : String → Except String Response)
    (identifier : String) (config : List (String × Json))
    (line : String) (rest : List String) :
    (collect loads identifier config (line :: rest)).remaining = rest := rfl

theorem infix_append_left {α : Type} (a : List α) {b c : List α}
    (h : b <:+: c) : b <:+: a ++ c :=
  h.trans (List.suffix_append a c).isInfix

/-- C1: for every flattened tree in which, at every node, every path
listed in a category field is a key of that node's children mapping,
`rebuild_category_lists` succeeds and produces a tree in which each
category list holds exactly the children-mapping entries looked up by
those paths (the rebuilt entries, since the source mutates the shared
objects in place), so at every node of the result every category-list
element is also an element of that node's rebuilt children list — the
same node value, not a divergent copy. -/
theorem C1_roundtrip_reconstruction (o : FlatObj) (h : wellFormedB o = true) :
    ∃ n chR, rebuildE o = .ok n ∧
      rebuildE.rebuildChildren o.children = .ok chR ∧
      n.children = chR.map Prod.snd ∧
      List.Forall₂ (fun p x => lookupD chR p = some x) o.attributes n.attributes ∧
      List.Forall₂ (fun p x => lookupD chR p = some x) o.classes n.classes ∧
      List.Forall₂ (fun p x => lookupD chR p = some x) o.functions n.functions ∧
      List.Forall₂ (fun p x => lookupD chR p = some x) o.methods n.methods ∧
      List.Forall₂ (fun p x => lookupD chR p = some x) o.modules n.modules ∧
      NodeAll catsWithinChildren n := by
  obtain ⟨n, hn⟩ := rebuild_ok_of_wf o h
  have hall := rebuilt_catsWithin o n hn
  cases o with
  | node p c a cl f m mo ch =>
    obtain ⟨chR, aR, clR, fR, mR, moR, hch, ha, hcl, hf, hm, hmo, hneq⟩ :=
      rebuildE_ok_inv hn
    subst hneq
    refine ⟨_, chR, hn, hch, rfl, ?_, ?_, ?_, ?_, ?_, hall⟩ <;>
      simp only [FlatObj.attributes, FlatObj.classes, FlatObj.functions,
        FlatObj.methods, FlatObj.modules, Node.attributes, Node.classes,
        Node.functions, Node.methods, Node.modules]
    · exact lookupPaths_ok_inv chR a aR ha
    · exact lookupPaths_ok_inv chR cl clR hcl
    · exact lookupPaths_ok_inv chR f fR hf
    · exact lookupPaths_ok_inv chR m mR hm
    · exact lookupPaths_ok_inv chR mo moR hmo

/-- Witness for C1 at the concrete scenario tree. -/
theorem C1_roundtrip_reconstruction_witness :
    wellFormedB fooFlat = true ∧
    (∃ n chR, rebuildE fooFlat = .ok n ∧
      rebuildE.rebuildChildren fooFlat.children = .ok chR ∧
      n.children = chR.map Prod.snd ∧
      List.Forall₂ (fun p x => lookupD chR p = some x) fooFlat.attributes n.attributes ∧
      List.Forall₂ (fun p x => lookupD chR p = some x) fooFlat.classes n.classes ∧
      List.Forall₂ (fun p x => lookupD chR p = some x) fooFlat.functions n.functions ∧
      List.Forall₂ (fun p x => lookupD chR p = some x) fooFlat.methods n.methods ∧
      List.Forall₂ (fun p x => lookupD chR p = some x) fooFlat.modules n.modules ∧
      NodeAll catsWithinChildren n) :=
  ⟨by rfl, C1_roundtrip_reconstruction fooFlat (by rfl)⟩

/-- C2: on a well-formed flattened node, after rebuilding, each category
field holds the nodes resolved from the flat children mapping in the same
order as the original path sequence, and the children field holds the
mapping's values (rebuilt) in the mapping's iteration order; as the
statement is proved for every flattened object, it applies at every node
of any tree. -/
theorem C2_order_preservation (o : FlatObj) (h : wellFormedB o = true) :
    ∃ n, rebuildE o = .ok n ∧
      List.Forall₂ (fun kv c => rebuildE kv.2 = .ok c) o.children n.children ∧
      List.Forall₂
        (fun p x => ∃ fv, lookupD o.children p = some fv ∧ rebuildE fv = .ok x)
        o.attributes n.attributes ∧
      List.Forall₂
        (fun p x => ∃ fv, lookupD o.children p = some fv ∧ rebuildE fv = .ok x)
        o.classes n.classes ∧
      List.Forall₂
        (fun p x => ∃ fv, lookupD o.children p = some fv ∧ rebuildE fv = .ok x)
        o.functions n.functions ∧
      List.Forall₂
        (fun p x => ∃ fv, lookupD o.children p = some fv ∧ rebuildE fv = .ok x)
        o.methods n.methods ∧
      List.Forall₂
        (fun p x => ∃ fv, lookupD o.children p = some fv ∧ rebuildE fv = .ok x)
        o.modules n.modules := by
  obtain ⟨n, hn⟩ := rebuild_ok_of_wf o h
  cases o with
  | node p c a cl f m mo ch =>
    obtain ⟨chR, aR, clR, fR, mR, moR, hch, ha, hcl, hf, hm, hmo, hneq⟩ :=
      rebuildE_ok_inv hn
    subst hneq
    have hrel := rebuildChildren_ok_inv ch chR hch
    refine ⟨_, hn, ?_, ?_, ?_, ?_, ?_, ?_⟩ <;>
      simp only [FlatObj.children, FlatObj.attributes, FlatObj.classes,
        FlatObj.functions, FlatObj.methods, FlatObj.modules, Node.children,
        Node.attributes, Node.classes, Node.functions, Node.methods,
        Node.modules]
    · exact children_rebuilt_forall₂ ch chR hrel
    · exact lookupPaths_rebuilt_forall₂ ch chR hrel a aR ha
    · exact lookupPaths_rebuilt_forall₂ ch chR hrel cl clR hcl
    · exact lookupPaths_rebuilt_forall₂ ch chR hrel f fR hf
    · exact lookupPaths_rebuilt_forall₂ ch chR hrel m mR hm
    · exact lookupPaths_rebuilt_forall₂ ch chR hrel mo moR hmo

/-- Witness for C2 at the concrete scenario tree. -/
theorem C2_order_preservation_witness :
    wellFormedB fooFlat = true ∧
    (∃ n, rebuildE fooFlat = .ok n ∧
      List.Forall₂ (fun kv c => rebuildE kv.2 = .ok c)
        fooFlat.children n.children ∧
      List.Forall₂
        (fun p x => ∃ fv, lookupD fooFlat.children p = some fv ∧ rebuildE fv = .ok x)
        fooFlat.attributes n.attributes ∧
      List.Forall₂
        (fun p x => ∃ fv, lookupD fooFlat.children p = some fv ∧ rebuildE fv = .ok x)
        fooFlat.classes n.classes ∧
      List.Forall₂
        (fun p x => ∃ fv, lookupD fooFlat.children p = some fv ∧ rebuildE fv = .ok x)
        fooFlat.functions n.functions ∧
      List.Forall₂
        (fun p x => ∃ fv, lookupD fooFlat.children p = some fv ∧ rebuildE fv = .ok x)
        fooFlat.methods n.methods ∧
      List.Forall₂
        (fun p x => ∃ fv, lookupD fooFlat.children p = some fv ∧ rebuildE fv = .ok x)
        fooFlat.modules n.modules) :=
  ⟨by rfl, C2_order_preservation fooFlat (by rfl)⟩

/-- C8: on every finite, cycle-free, well-formed flattened tree,
`rebuild_category_lists` terminates with a result (the embedding is a
total function) and rebuilds every node exactly once: the number of
nodes of the rebuilt tree equals the total number of entries across all
`children` mappings plus one for the root. -/
theorem C8_every_node_rebuilt_once (o : FlatObj) (h : wellFormedB o = true) :
    ∃ n, rebuildE o = .ok n ∧ nodeCount n = 1 + flatEntryCount o := by
  obtain ⟨n, hn⟩ := rebuild_ok_of_wf o h
  exact ⟨n, hn, rebuild_count o n hn⟩

/-- Witness for C8 at the concrete scenario tree. -/
theorem C8_every_node_rebuilt_once_witness :
    wellFormedB fooFlat = true ∧
    (∃ n, rebuildE fooFlat = .ok n ∧ nodeCount n = 1 + flatEntryCount fooFlat) :=
  ⟨by rfl, C8_every_node_rebuilt_once fooFlat (by rfl)⟩

/-- C3: for every decoded response record with a non-empty `error`
field, `collect` raises a `CollectionError` whose message is the error
field alone (hence contains the error string and nothing of the
traceback); the traceback, when present, is appended only to the logged
diagnostic message. -/
theorem C3_worker_error_collection_error
    (loads : String → Except String Response)
    (identifier : String) (config : List (String × Json))
    (line : String) (rest : List String) (r : Response) (e : String)
    (hload : loads line = .ok r) (herr : r.error = some e) (_hne : e ≠ "") :
    (collect loads identifier config (line :: rest)).result =
      .error (.collectionError e) ∧
    ∃ msg, (collect loads identifier config (line :: rest)).logs =
        [.errorLog msg] ∧
      e.data <:+: msg.data ∧
      ∀ tb, r.traceback = some tb → tb.data <:+: msg.data := by
  rw [collect_result_cons, collect_logs_cons, hload]
  cases htb : r.traceback with
  | none =>
      have hcc : collectClassify (Except.ok r) line =
          ([.errorLog (logPrefix ++ "Collection failed: " ++ e)],
           .error (.collectionError e)) := by
        simp only [collectClassify, herr, htb]
      rw [hcc]
      refine ⟨rfl, _, rfl, ?_, ?_⟩
      · rw [String.data_append]
        exact (List.suffix_append _ _).isInfix
      · intro tb htb2
        exact Option.noConfusion htb2
  | some tb =>
      have hcc : collectClassify (Except.ok r) line =
          ([.errorLog (logPrefix ++ "Collection failed: " ++ e ++ "\n" ++ tb)],
           .error (.collectionError e)) := by
        simp only [collectClassify, herr, htb]
      rw [hcc]
      refine ⟨rfl, _, rfl, ?_, ?_⟩
      · simp only [String.data_append, List.append_assoc]
        exact infix_append_left _ (infix_append_left _ (List.prefix_append _ _).isInfix)
      · intro tb2 htb2
        injection htb2 with h
        subst h
        simp only [String.data_append]
        exact (List.suffix_append _ _).isInfix

/-- Witness for C3: a worker error `"boom"` with a traceback. -/
theorem C3_worker_error_collection_error_witness :
    loadsErr "line" = .ok errResponse ∧ errResponse.error = some "boom" ∧
    "boom" ≠ "" ∧
    ((collect loadsErr "pkg.Foo" [] ["line"]).result =
      .error (.collectionError "boom") ∧
    ∃ msg, (collect loadsErr "pkg.Foo" [] ["line"]).logs = [.errorLog msg] ∧
      "boom".data <:+: msg.data ∧
      ∀ tb, errResponse.traceback = some tb → tb.data <:+: msg.data) :=
  ⟨rfl, rfl, by decide,
    C3_worker_error_collection_error loadsErr "pkg.Foo" [] "line" []
      errResponse "boom" rfl rfl (by decide)⟩

/-- C4: for every decoded response record without an `error` field,
non-empty `loading_errors` and `parsing_errors` never make `collect`
fail: every `loading_errors` entry and every entry of every path's
sequence in `parsing_errors` is reported as a warning, and the call
still extracts and returns the reconstructed tree. -/
theorem C4_warnings_never_fatal (loads : String → Except String Response)
    (identifier : String) (config : List (String × Json))
    (line : String) (rest : List String) (r : Response)
    (o : FlatObj) (os : List FlatObj) (n : Node)
    (hload : loads line = .ok r) (herr : r.error = none)
    (hobj : r.objects = o :: os) (hre : rebuildE o = .ok n) :
    (collect loads identifier config (line :: rest)).result = .ok n ∧
    (∀ e ∈ r.loading_errors,
      LogEntry.warningLog (logPrefix ++ e) ∈
        (collect loads identifier config (line :: rest)).logs) ∧
    (∀ pe ∈ r.parsing_errors, ∀ e ∈ pe.2,
      LogEntry.warningLog (logPrefix ++ e) ∈
        (collect loads identifier config (line :: rest)).logs) := by
  rw [collect_result_cons, collect_logs_cons, hload]
  have hcc : collectClassify (Except.ok r) line =
      ((r.loading_errors.map fun e => LogEntry.warningLog (logPrefix ++ e)) ++
        (r.parsing_errors.map fun pe =>
          pe.2.map fun e => LogEntry.warningLog (logPrefix ++ e)).flatten,
       .ok n) := by
    simp only [collectClassify, herr, hobj, hre]
  rw [hcc]
  refine ⟨rfl, ?_, ?_⟩
  · intro e he
    exact List.mem_append.mpr (.inl (List.mem_map_of_mem _ he))
  · intro pe hpe e he
    refine List.mem_append.mpr (.inr ?_)
    rw [List.mem_flatten]
    exact ⟨pe.2.map fun e => LogEntry.warningLog (logPrefix ++ e),
      List.mem_map_of_mem _ hpe, List.mem_map_of_mem _ he⟩

/-- Witness for C4: a response with one loading error and one parsing
error still returns the reconstructed scenario tree. -/
theorem C4_warnings_never_fatal_witness :
    loadsOk "line" = .ok okResponse ∧ okResponse.error = none ∧
    okResponse.objects = fooFlat :: [] ∧ rebuildE fooFlat = .ok fooNode ∧
    ((collect loadsOk "pkg.Foo" [] ["line"]).result = .ok fooNode ∧
    (∀ e ∈ okResponse.loading_errors,
      LogEntry.warningLog (logPrefix ++ e) ∈
        (collect loadsOk "pkg.Foo" [] ["line"]).logs) ∧
    (∀ pe ∈ okResponse.parsing_errors, ∀ e ∈ pe.2,
      LogEntry.warningLog (logPrefix ++ e) ∈
        (collect loadsOk "pkg.Foo" [] ["line"]).logs)) :=
  ⟨rfl, rfl, rfl, rfl,
    C4_warnings_never_fatal loadsOk "pkg.Foo" [] "line" [] okResponse
      fooFlat [] fooNode rfl rfl rfl rfl⟩

/-- C5 counterexample: on the undecodable line `"not json"`,
`json.loads` raises `"Expecting value: line 1 column 1 (char 0)"` and
`collect` raises a `CollectionError` carrying exactly that decode
message — the offending raw text is not part of the raised error (it
goes to the error log only), refuting the claim that the
`CollectionError` carries both. -/
theorem C5_counterexample :
    (collect loadsFail "pkg.Foo" [] ["not json"]).result =
      .error (.collectionError decodeErrMsg) ∧
    ¬ ("not json".data <:+: decodeErrMsg.data) :=
  ⟨rfl, by decide⟩

/-- C5 as amended: on a decode failure, `collect` fails with a
`CollectionError` carrying the decode error; the offending raw text
appears in the logged error message (not in the raised error), and
exactly one response line is consumed — no retry is attempted. -/
theorem C5_decode_failure_amended (loads : String → Except String Response)
    (identifier : String) (config : List (String × Json))
    (line : String) (rest : List String) (exc : String)
    (hload : loads line = .error exc) :
    (collect loads identifier config (line :: rest)).result =
      .error (.collectionError exc) ∧
    (collect loads identifier config (line :: rest)).logs =
      [.errorLog (logPrefix ++ "Error while loading JSON: " ++ line)] ∧
    line.data <:+: (logPrefix ++ "Error while loading JSON: " ++ line).data ∧
    (collect loads identifier config (line :: rest)).remaining = rest := by
  rw [collect_result_cons, collect_logs_cons, collect_remaining_cons, hload]
  refine ⟨rfl, rfl, ?_, rfl⟩
  rw [String.data_append]
  exact (List.suffix_append _ _).isInfix

/-- Witness for the amended C5 at the concrete undecodable line. -/
theorem C5_decode_failure_amended_witness :
    loadsFail "not json" = .error decodeErrMsg ∧
    ((collect loadsFail "pkg.Foo" [] ["not json"]).result =
      .error (.collectionError decodeErrMsg) ∧
    (collect loadsFail "pkg.Foo" [] ["not json"]).logs =
      [.errorLog (logPrefix ++ "Error while loading JSON: " ++ "not json")] ∧
    "not json".data <:+:
      (logPrefix ++ "Error while loading JSON: " ++ "not json").data ∧
    (collect loadsFail "pkg.Foo" [] ["not json"]).remaining = []) :=
  ⟨rfl, C5_decode_failure_amended loadsFail "pkg.Foo" [] "not json" []
    decodeErrMsg rfl⟩

/-- C6 counterexample: a decoded non-error response with an empty
`objects` list is a fatal condition (`result["objects"][0]` raises), but
the raised exception is `IndexError`, not `CollectionError` — refuting
the claim that every fatal condition after a response line surfaces as
`CollectionError`. -/
theorem C6_counterexample :
    (collect loadsEmptyObjects "pkg.Foo" [] ["line"]).result =
      .error .indexError ∧
    isCollectionErrorResult
      (collect loadsEmptyObjects "pkg.Foo" [] ["line"]).result = false :=
  ⟨rfl, rfl⟩

/-- C6 as amended: a `collect` call's outcome is a `CollectionError`
exactly when the response line fails to decode or the decoded record
has an `error` key; the structural contract violations therefore escape
as other exception kinds (an empty `objects` list as `IndexError`, a
missing category path as `KeyError`), and a multi-element `objects`
list is not detected as fatal at all. -/
theorem C6_collection_error_iff (loads : String → Except String Response)
    (identifier : String) (config : List (String × Json))
    (line : String) (rest : List String) :
    isCollectionErrorResult
        (collect loads identifier config (line :: rest)).result = true ↔
      (∃ exc, loads line = .error exc) ∨
      (∃ r e, loads line = .ok r ∧ r.error = some e) := by
  rw [collect_result_cons]
  cases hload : loads line with
  | error exc => exact iff_of_true rfl (.inl ⟨exc, rfl⟩)
  | ok r =>
      cases herr : r.error with
      | some e =>
          have hcc : (collectClassify (Except.ok r) line).2 =
              .error (.collectionError e) := by
            cases htb : r.traceback <;> simp only [collectClassify, herr, htb]
          rw [hcc]
          exact iff_of_true rfl (.inr ⟨r, e, rfl, herr⟩)
      | none =>
          have hfalse : isCollectionErrorResult
              (collectClassify (Except.ok r) line).2 = false := by
            cases hobj : r.objects with
            | nil => simp only [collectClassify, herr, hobj, isCollectionErrorResult]
            | cons o os =>
                cases hre : rebuildE o <;>
                  simp only [collectClassify, herr, hobj, hre, isCollectionErrorResult]
          rw [hfalse]
          refine iff_of_false (fun h => Bool.noConfusion h) ?_
          rintro (⟨exc, h⟩ | ⟨r2, e2, h1, h2⟩)
          · exact Except.noConfusion h
          · injection h1 with h1
            subst h1
            rw [herr] at h2
            exact Option.noConfusion h2

/-- C7: for every decoded non-error response whose `objects` list holds
exactly one flattened record, `collect` returns exactly the result of
`rebuild_category_lists` applied to that record. -/
theorem C7_single_object_extracted (loads : String → Except String Response)
    (identifier : String) (config : List (String × Json))
    (line : String) (rest : List String) (r : Response)
    (o : FlatObj) (n : Node)
    (hload : loads line = .ok r) (herr : r.error = none)
    (hobj : r.objects = [o]) (hre : rebuildE o = .ok n) :
    (collect loads identifier config (line :: rest)).result = .ok n := by
  rw [collect_result_cons, hload]
  simp only [collectClassify, herr, hobj, hre]

/-- Witness for C7 at the scenario response. -/
theorem C7_single_object_extracted_witness :
    loadsOk "line" = .ok okResponse ∧ okResponse.error = none ∧
    okResponse.objects = [fooFlat] ∧ rebuildE fooFlat = .ok fooNode ∧
    (collect loadsOk "pkg.Foo" [] ["line"]).result = .ok fooNode :=
  ⟨rfl, rfl, rfl, rfl,
    C7_single_object_extracted loadsOk "pkg.Foo" [] "line" [] okResponse
      fooFlat fooNode rfl rfl rfl rfl⟩

/-- C9: the serialized request `collect` writes to the worker's input
stream is a single line: what is written is the encoded payload followed
by the one newline `print` appends, and the payload itself contains no
raw newline character, for every identifier and every selection-options
mapping (values containing newline characters included, since JSON
string escaping replaces them). -/
theorem C9_request_single_line (loads : String → Except String Response)
    (identifier : String) (config : List (String × Json))
    (stdoutLines : List String) :
    (collect loads identifier config stdoutLines).written =
      String.mk (json_input identifier (dictUpdate DEFAULT_CONFIG config)) ++ "\n" ∧
    '\n' ∉ json_input identifier (dictUpdate DEFAULT_CONFIG config) :=
  ⟨rfl, dumps_no_newline _⟩

/-- C10: failure is decided by the mere presence of the `error` key —
when the decoded record's `error` field is the empty string, `collect`
still raises a `CollectionError` with an empty message, and emits a
single error log entry (no warning reporting, no extraction). -/
theorem C10_empty_error_key_fatal (loads : String → Except String Response)
    (identifier : String) (config : List (String × Json))
    (line : String) (rest : List String) (r : Response)
    (hload : loads line = .ok r) (herr : r.error = some "") :
    (collect loads identifier config (line :: rest)).result =
      .error (.collectionError "") ∧
    ∃ msg, (collect loads identifier config (line :: rest)).logs =
      [.errorLog msg] := by
  rw [collect_result_cons, collect_logs_cons, hload]
  cases htb : r.traceback with
  | none =>
      have hcc : collectClassify (Except.ok r) line =
          ([.errorLog (logPrefix ++ "Collection failed: " ++ "")],
           .error (.collectionError "")) := by
        simp only [collectClassify, herr, htb]
      rw [hcc]
      exact ⟨rfl, _, rfl⟩
  | some tb =>
      have hcc : collectClassify (Except.ok r) line =
          ([.errorLog (logPrefix ++ "Collection failed: " ++ "" ++ "\n" ++ tb)],
           .error (.collectionError "")) := by
        simp only [collectClassify, herr, htb]
      rw [hcc]
      exact ⟨rfl, _, rfl⟩

/-- Witness for C10: an `error` key holding the empty string. -/
theorem C10_empty_error_key_fatal_witness :
    loadsEmptyErr "line" = .ok emptyErrResponse ∧
    emptyErrResponse.error = some "" ∧
    ((collect loadsEmptyErr "pkg.Foo" [] ["line"]).result =
      .error (.collectionError "") ∧
    ∃ msg, (collect loadsEmptyErr "pkg.Foo" [] ["line"]).logs =
      [.errorLog msg]) :=
  ⟨rfl, rfl,
    C10_empty_error_key_fatal loadsEmptyErr "pkg.Foo" [] "line" []
      emptyErrResponse rfl rfl⟩

end Mkdocstrings
